import Mathlib

/-!
Verification of the reviewer-resolution engine of `auto-request-review`
(`src/reviewer.js`), shallowly embedded in Lean 4.  JavaScript arrays become
`List String`, objects with string keys become association lists, optional
configuration keys become `Option`, and code that can throw a `TypeError`
returns `Except JsError _`.
-/

set_option maxRecDepth 4000

namespace AutoRequestReview

/-! ### JS string helpers

`strStartsWith hay needle` models the question "does `hay` start with
`needle`"; `strIncludes s kw` models JavaScript `s.includes(kw)` (literal
substring containment). -/

def strStartsWith : List Char → List Char → Bool
  | _, [] => true
  | [], _ :: _ => false
  | c :: cs, d :: ds => c == d && strStartsWith cs ds

def strIncludesL : List Char → List Char → Bool
  | [], needle => needle.isEmpty
  | c :: cs, needle => strStartsWith (c :: cs) needle || strIncludesL cs needle

def strIncludes (s kw : String) : Bool :=
  strIncludesL s.data kw.data

/-! ### Glob matching

Model of the external `minimatch` library (a dependency, not repository
code): shell-style glob matching with `*` (any run of characters) and `?`
(any single character), which covers every pattern exercised here.  The
`fuel` argument makes the recursion structural; `fuel = |file| + |pattern| + 1`
is enough because every recursive call shrinks `|file| + |pattern|`. -/

def globMatchF : Nat → List Char → List Char → Bool
  | 0, _, _ => false
  | _ + 1, [], [] => true
  | f + 1, [], p :: ps => p == '*' && globMatchF f [] ps
  | _ + 1, _ :: _, [] => false
  | f + 1, c :: cs, p :: ps =>
    if p == '*' then globMatchF f (c :: cs) ps || globMatchF f cs (p :: ps)
    else (p == '?' || p == c) && globMatchF f cs ps

def minimatch (changed_file glob_pattern : String) : Bool :=
  globMatchF (changed_file.data.length + glob_pattern.data.length + 1)
    changed_file.data glob_pattern.data

/-! ### JS `Set` deduplication

`[ ...new Set(xs) ]` keeps the first occurrence of each element in order. -/

def dedupAux (seen : List String) : List String → List String
  | [] => []
  | x :: xs => if x ∈ seen then dedupAux seen xs else x :: dedupAux (x :: seen) xs

def dedupJS (l : List String) : List String :=
  dedupAux [] l

/-- Lookup in an association list modelling a JS object (`obj[key]`,
`undefined` becomes `none`).  `Object.entries` order is the list order. -/
def lookupAssoc (m : List (String × List String)) (key : String) : Option (List String) :=
  match m.find? (fun p => p.1 == key) with
  | some p => some p.2
  | none => none

/-! ### Data model -/

/-- The recognized `options` keys of the policy; an absent key is `none` and
each consumer substitutes its own default (modelling the
`{ ...DEFAULT_OPTIONS, ...config.options }` merge). -/
structure OptionsBag where
  enable_group_assignment : Option Bool := none
  last_files_match_only : Option Bool := none
  ignore_draft : Option Bool := none
  ignored_keywords : Option (List String) := none
  number_of_reviewers : Option Int := none
deriving Repr, DecidableEq

/-- The `reviewers` section of the policy document. -/
structure ReviewersSection where
  groups : Option (List (String × List String)) := none
  per_author : Option (List (String × List String)) := none
  defaults : Option (List String) := none
deriving Repr, DecidableEq

/-- The whole policy (`config`). `files` maps glob patterns to reviewer
lists; `none` models an absent (or falsy) `files` key. -/
structure Config where
  reviewers : Option ReviewersSection := none
  files : Option (List (String × List String)) := none
  options : OptionsBag := {}
deriving Repr, DecidableEq

/-- One diff view: the `added` / `removed` / `modified` file lists. -/
structure ChangedBatch where
  added : List String := []
  removed : List String := []
  modified : List String := []
deriving Repr, DecidableEq

/-- The change set: cumulative PR diff (`total`) and last commit diff (`last`). -/
structure ChangedFiles where
  total : ChangedBatch := {}
  last : ChangedBatch := {}
deriving Repr, DecidableEq

/-- `(config.reviewers && config.reviewers.groups) || {}`. -/
def config_groups (config : Config) : List (String × List String) :=
  match config.reviewers with
  | some r => r.groups.getD []
  | none => []

/-! ### `replace_groups_with_individuals` -/

/-- `replace_groups_with_individuals({ reviewers, config, excludes = [] })`:
each reviewer that names a group (i.e. `groups[reviewer]` is an array) is
replaced by the group's member list, others pass through; the flattened list
is deduplicated (`new Set`) and entries from `excludes` are filtered out. -/
def replace_groups_with_individuals (reviewers : List String) (config : Config)
    (excludes : List String := []) : List String :=
  let groups := config_groups config
  let individuals := reviewers.flatMap (fun reviewer =>
    match lookupAssoc groups reviewer with
    | some members => members
    | none => [reviewer])
  let deduplicated_individuals := dedupJS individuals
  deduplicated_individuals.filter (fun individual => individual ∉ excludes)

/-! ### `should_request_review` -/

/-- `should_request_review({ title, is_draft, config })`: returns `false` when
`ignore_draft` (default `true`) holds and the PR is a draft; otherwise `true`
unless some ignored keyword (default `["DO NOT REVIEW"]`) occurs in the title
as a literal substring. -/
def should_request_review (title : String) (is_draft : Bool) (config : Config) : Bool :=
  let should_ignore_draft := config.options.ignore_draft.getD true
  let ignored_keywords := config.options.ignored_keywords.getD ["DO NOT REVIEW"]
  if should_ignore_draft && is_draft then false
  else !(ignored_keywords.any (fun keyword => strIncludes title keyword))

/-! ### `fetch_other_group_members` -/

/-- `fetch_other_group_members({ author, config })`: with
`enable_group_assignment` (default `false`) off, returns `[]`.  Otherwise
collects the names of groups whose raw member list contains the author,
flat-maps those groups' member lists, drops the author, and deduplicates. -/
def fetch_other_group_members (author : String) (config : Config) : List String :=
  let should_group_assign := config.options.enable_group_assignment.getD false
  if !should_group_assign then []
  else
    let groups := config_groups config
    let belonging_group_names :=
      (groups.filter (fun p => author ∈ p.2)).map (fun p => p.1)
    let other_group_members :=
      (belonging_group_names.flatMap (fun group_name =>
        (lookupAssoc groups group_name).getD [])).filter
        (fun group_member => group_member ≠ author)
    dedupJS other_group_members

/-! ### `identify_reviewers_by_changed_files` -/

/-- A thrown JavaScript `TypeError`. -/
inductive JsError where
  | typeError : JsError
deriving Repr, DecidableEq

/-- The four reviewer buckets built by `identify_reviewers_by_changed_files`
(the outer `reviewers` object of the source). -/
structure Buckets where
  matched : List String := []
  must_be_added : List String := []
  should_be_added : List String := []
  could_be_removed : List String := []
deriving Repr, DecidableEq

/-- The two return shapes of `identify_reviewers_by_changed_files`: a flat
array when `config.files` is absent, and the four-bucket object otherwise. -/
inductive FilesResult where
  | flat (reviewers : List String)
  | buckets (b : Buckets)
deriving Repr, DecidableEq

/-- Body of the `Object.entries(config.files).forEach` loop.  In the source
the loop parameter `reviewers` shadows the outer bucket object, so inside the
loop `reviewers` is the rule's reviewer *array*, `reviewers.matched` (and the
other three bucket fields) is `undefined`, and both
`reviewers.matched.length = 0` (the `last_files_match_only` branch) and every
`reviewers.<bucket>.push(...)` throw a `TypeError`.  Hence the body throws as
soon as one of its four conditions fires, and leaves the outer buckets
untouched otherwise.  The conditions are tested in source order. -/
def file_rule_step (changed_files : ChangedFiles) (b : Buckets)
    (rule : String × List String) : Except JsError Buckets :=
  let glob_pattern := rule.1
  let has_matches := fun changed_file => minimatch changed_file glob_pattern
  let last_changed_files :=
    changed_files.last.added ++ changed_files.last.removed ++ changed_files.last.modified
  if last_changed_files.any has_matches then .error .typeError
  else if changed_files.last.modified.any has_matches then .error .typeError
  else
    let added_or_deleted := changed_files.last.added ++ changed_files.last.removed
    if added_or_deleted.any has_matches then .error .typeError
    else
      let all_changed_files :=
        changed_files.total.added ++ changed_files.total.removed ++ changed_files.total.modified
      let reverted_files := last_changed_files.filter
        (fun changed_file => changed_file ∉ all_changed_files)
      if reverted_files.any has_matches then .error .typeError
      else .ok b

/-- `identify_reviewers_by_changed_files({ config, changed_files, excludes = [] })`:
without a `files` key, returns the flat empty array.  With one, iterates the
rules (each iteration throwing on a match, see `file_rule_step`) and finally
passes each bucket through `replace_groups_with_individuals` with the
caller's excludes. -/
def identify_reviewers_by_changed_files (config : Config) (changed_files : ChangedFiles)
    (excludes : List String := []) : Except JsError FilesResult :=
  match config.files with
  | none => .ok (.flat [])
  | some files =>
    match files.foldlM (file_rule_step changed_files) ({} : Buckets) with
    | .error e => .error e
    | .ok reviewers =>
      .ok (.buckets
        { matched := replace_groups_with_individuals reviewers.matched config excludes
          must_be_added := replace_groups_with_individuals reviewers.must_be_added config excludes
          should_be_added := replace_groups_with_individuals reviewers.should_be_added config excludes
          could_be_removed :=
            replace_groups_with_individuals reviewers.could_be_removed config excludes })

/-! ### `identify_reviewers_by_author` -/

/-- `config.reviewers && config.reviewers.per_author`. -/
def per_author_of (config : Config) : Option (List (String × List String)) :=
  match config.reviewers with
  | some r => r.per_author
  | none => none

/-- `identify_reviewers_by_author({ config, author: specified_author })`:
without a `per_author` section returns `[]`.  Otherwise a rule key matches
when it equals the specified author literally or its group expansion contains
the author; the matching rules' reviewer lists are each expanded through
`replace_groups_with_individuals`, concatenated, and the specified author is
filtered out. -/
def identify_reviewers_by_author (config : Config) (specified_author : String) : List String :=
  match per_author_of config with
  | none => []
  | some per_author =>
    let matching_authors := (per_author.map (fun p => p.1)).filter (fun author =>
      author == specified_author ||
        specified_author ∈ replace_groups_with_individuals [author] config)
    let matching_reviewers := matching_authors.flatMap (fun matching_author =>
      replace_groups_with_individuals ((lookupAssoc per_author matching_author).getD []) config)
    matching_reviewers.filter (fun reviewer => reviewer ≠ specified_author)

/-! ### `fetch_default_reviewers` -/

/-- `fetch_default_reviewers({ config, excludes = [] })`: without a
`defaults` array returns `[]`; otherwise expands the defaults through the
group resolver, deduplicates, and filters out excluded reviewers. -/
def fetch_default_reviewers (config : Config) (excludes : List String := []) : List String :=
  match config.reviewers with
  | none => []
  | some r =>
    match r.defaults with
    | none => []
    | some defaults =>
      let individuals := replace_groups_with_individuals defaults config
      (dedupJS individuals).filter (fun reviewer => reviewer ∉ excludes)

/-! ### `randomly_pick_reviewers`

lodash `sampleSize(array, n)` clamps `n` to `[0, array.length]`, runs a
partial Fisher–Yates shuffle of the first `n` slots (each step swapping slot
`index` with a random slot in `[index, length - 1]`) and truncates to `n`
elements.  The random source is modelled by an `oracle : Nat → Nat` giving
the raw random draw at each loop index; it is clamped into the legal range,
so every actual behaviour of `baseRandom` is some oracle. -/

def shuffleGo (oracle : Nat → Nat) (size lastIndex : Nat) :
    Nat → Nat → List String → List String
  | 0, _, a => a
  | fuel + 1, index, a =>
    if index < size then
      let rand := min lastIndex (max index (oracle index))
      let value := a.getD rand ""
      let a1 := a.set rand (a.getD index "")
      let a2 := a1.set index value
      shuffleGo oracle size lastIndex fuel (index + 1) a2
    else a

def shuffleSelf (oracle : Nat → Nat) (arr : List String) (size : Nat) : List String :=
  (shuffleGo oracle size (arr.length - 1) size 0 arr).take size

/-- `randomly_pick_reviewers({ reviewers, config })`: with
`number_of_reviewers` absent, the input is returned unchanged; otherwise
lodash `sampleSize` is applied with that count. -/
def randomly_pick_reviewers (oracle : Nat → Nat) (reviewers : List String)
    (config : Config) : List String :=
  match config.options.number_of_reviewers with
  | none => reviewers
  | some number_of_reviewers =>
    shuffleSelf oracle reviewers
      ((max 0 (min number_of_reviewers (Int.ofNat reviewers.length))).toNat)

/-! ### Lemmas about `dedupJS` -/

theorem mem_dedupAux {x : String} :
    ∀ (l seen : List String), x ∈ dedupAux seen l → x ∈ l ∧ x ∉ seen := by
  intro l
  induction l with
  | nil => intro seen h; exact absurd h (by simp [dedupAux])
  | cons a l ih =>
    intro seen h
    simp only [dedupAux] at h
    split at h
    · rename_i ha
      obtain ⟨h1, h2⟩ := ih seen h
      exact ⟨List.mem_cons_of_mem a h1, h2⟩
    · rename_i ha
      rcases List.mem_cons.mp h with rfl | hm
      · exact ⟨List.mem_cons_self x l, ha⟩
      · obtain ⟨h1, h2⟩ := ih (a :: seen) hm
        exact ⟨List.mem_cons_of_mem a h1, fun hx => h2 (List.mem_cons_of_mem a hx)⟩

theorem dedupAux_nodup : ∀ (l seen : List String), (dedupAux seen l).Nodup := by
  intro l
  induction l with
  | nil => intro seen; simp [dedupAux]
  | cons a l ih =>
    intro seen
    simp only [dedupAux]
    split
    · exact ih seen
    · refine List.nodup_cons.mpr ⟨fun hmem => ?_, ih (a :: seen)⟩
      exact (mem_dedupAux l (a :: seen) hmem).2 (List.mem_cons_self a seen)

theorem dedupAux_eq_self : ∀ (l seen : List String), l.Nodup → (∀ x ∈ l, x ∉ seen) →
    dedupAux seen l = l := by
  intro l
  induction l with
  | nil => intro seen _ _; rfl
  | cons a l ih =>
    intro seen hnd hs
    simp only [dedupAux]
    rw [if_neg (hs a (List.mem_cons_self a l))]
    congr 1
    refine ih (a :: seen) (List.nodup_cons.mp hnd).2 (fun x hx hmem => ?_)
    rcases List.mem_cons.mp hmem with rfl | hmem2
    · exact (List.nodup_cons.mp hnd).1 hx
    · exact hs x (List.mem_cons_of_mem a hx) hmem2

theorem mem_dedupJS {x : String} {l : List String} (h : x ∈ dedupJS l) : x ∈ l :=
  (mem_dedupAux l [] h).1

theorem dedupJS_nodup (l : List String) : (dedupJS l).Nodup :=
  dedupAux_nodup l []

theorem dedupJS_eq_self {l : List String} (h : l.Nodup) : dedupJS l = l :=
  dedupAux_eq_self l [] h (fun x _ => List.not_mem_nil x)

/-! ### Small list lemmas -/

theorem getD_mem : ∀ (l : List String) (n : Nat), n < l.length → ∀ d, l.getD n d ∈ l := by
  intro l
  induction l with
  | nil => intro n h; simp at h
  | cons a l ih =>
    intro n h d
    cases n with
    | zero => simp [List.getD]
    | succ n =>
      have hm := ih n (by simpa using h) d
      simp only [List.getD] at hm ⊢
      exact List.mem_cons_of_mem a (by simpa using hm)

theorem flatMap_eq_self {l : List String} {f : String → List String}
    (h : ∀ x ∈ l, f x = [x]) : l.flatMap f = l := by
  induction l with
  | nil => rfl
  | cons a l ih =>
    rw [List.flatMap_cons, h a (List.mem_cons_self a l),
      ih (fun x hx => h x (List.mem_cons_of_mem a hx))]
    rfl

/-! ### Lemmas about `replace_groups_with_individuals` -/

theorem replace_groups_nodup (reviewers : List String) (config : Config)
    (excludes : List String) :
    (replace_groups_with_individuals reviewers config excludes).Nodup :=
  (dedupJS_nodup _).filter _

theorem replace_groups_not_excluded {x : String} {reviewers excludes : List String}
    {config : Config}
    (h : x ∈ replace_groups_with_individuals reviewers config excludes) : x ∉ excludes := by
  simp only [replace_groups_with_individuals] at h
  simpa using List.of_mem_filter h

theorem replace_groups_nil (config : Config) (excludes : List String) :
    replace_groups_with_individuals [] config excludes = [] := rfl

theorem replace_groups_groupfree {l : List String} {config : Config}
    (h : ∀ x ∈ l, lookupAssoc (config_groups config) x = none) :
    replace_groups_with_individuals l config = dedupJS l := by
  simp only [replace_groups_with_individuals]
  rw [flatMap_eq_self (fun x hx => by rw [h x hx])]
  exact List.filter_eq_self.mpr (fun a _ => by simp)

/-! ### Lemmas about the sampler -/

theorem shuffleGo_length (o : Nat → Nat) (s li : Nat) :
    ∀ (fuel index : Nat) (a : List String),
      (shuffleGo o s li fuel index a).length = a.length := by
  intro fuel
  induction fuel with
  | zero => intro index a; rfl
  | succ fuel ih =>
    intro index a
    simp only [shuffleGo]
    split
    · rw [ih]; simp
    · rfl

theorem shuffleGo_mem (o : Nat → Nat) (s li : Nat) :
    ∀ (fuel index : Nat) (a : List String), li < a.length → s ≤ a.length →
      ∀ x ∈ shuffleGo o s li fuel index a, x ∈ a := by
  intro fuel
  induction fuel with
  | zero => intro index a _ _ x hx; exact hx
  | succ fuel ih =>
    intro index a hli hs x hx
    simp only [shuffleGo] at hx
    split at hx
    · rename_i hidx
      have hlen : ((a.set (min li (max index (o index))) (a.getD index "")).set index
          (a.getD (min li (max index (o index))) "")).length = a.length := by simp
      have hx2 := ih (index + 1) _ (by rw [hlen]; exact hli) (by rw [hlen]; exact hs) x hx
      rcases List.mem_or_eq_of_mem_set hx2 with hx3 | rfl
      · rcases List.mem_or_eq_of_mem_set hx3 with hx4 | rfl
        · exact hx4
        · exact getD_mem a index (Nat.lt_of_lt_of_le hidx hs) ""
      · exact getD_mem a _ (Nat.lt_of_le_of_lt (min_le_left _ _) hli) ""
    · exact hx

/-! ### Lemmas about the file-rule loop -/

theorem file_rule_step_cases (cf : ChangedFiles) (b : Buckets) (rule : String × List String) :
    file_rule_step cf b rule = .error .typeError ∨ file_rule_step cf b rule = .ok b := by
  simp only [file_rule_step]
  split
  · exact Or.inl rfl
  · split
    · exact Or.inl rfl
    · split
      · exact Or.inl rfl
      · split
        · exact Or.inl rfl
        · exact Or.inr rfl

theorem foldlM_file_rule_step (cf : ChangedFiles) :
    ∀ (rules : List (String × List String)) (b : Buckets),
      rules.foldlM (file_rule_step cf) b = .error .typeError ∨
      rules.foldlM (file_rule_step cf) b = .ok b := by
  intro rules
  induction rules with
  | nil => intro b; exact Or.inr rfl
  | cons r rules ih =>
    intro b
    rcases file_rule_step_cases cf b r with h | h
    · left; simp only [List.foldlM_cons, h]; rfl
    · rcases ih b with h2 | h2
      · left; simp only [List.foldlM_cons, h]; exact h2
      · right; simp only [List.foldlM_cons, h]; exact h2

/-- Every run of `identify_reviewers_by_changed_files` either reports the
missing `files` key with the flat empty array, throws the `TypeError` caused
by the shadowed `reviewers` variable, or returns the four (empty) buckets. -/
theorem identify_cases (config : Config) (changed_files : ChangedFiles) (excludes : List String) :
    (config.files = none ∧
      identify_reviewers_by_changed_files config changed_files excludes = .ok (.flat [])) ∨
    (config.files ≠ none ∧
      identify_reviewers_by_changed_files config changed_files excludes = .error .typeError) ∨
    (config.files ≠ none ∧
      identify_reviewers_by_changed_files config changed_files excludes = .ok (.buckets {})) := by
  rcases hf : config.files with _ | files
  · exact Or.inl ⟨rfl, by simp [identify_reviewers_by_changed_files, hf]⟩
  · rcases foldlM_file_rule_step changed_files files {} with h | h
    · refine Or.inr (Or.inl ⟨by simp [hf], ?_⟩)
      simp [identify_reviewers_by_changed_files, hf, h]
    · refine Or.inr (Or.inr ⟨by simp [hf], ?_⟩)
      simp [identify_reviewers_by_changed_files, hf, h, replace_groups_nil]

/-! ### Concrete inputs used by the claim theorems -/

/-- A policy with a single file rule `"*.js" -> ["alice"]`. -/
def throwing_config : Config := { files := some [("*.js", ["alice"])] }

/-- A change set whose last commit modified `x.js`, which `"*.js"` matches. -/
def throwing_changes : ChangedFiles :=
  { total := { modified := ["x.js"] }, last := { modified := ["x.js"] } }

/-- The spec's revert-classification policy: one rule `"*.txt" -> ["bob"]`. -/
def revert_config : Config := { files := some [("*.txt", ["bob"])] }

/-- The spec's revert-classification change set: `total` empty,
`last.added = ["a.txt"]`. -/
def revert_changes : ChangedFiles := { total := {}, last := { added := ["a.txt"] } }

/-- `revert_config` with the `last_files_match_only` option enabled. -/
def lfm_config : Config :=
  { files := some [("*.txt", ["bob"])], options := { last_files_match_only := some true } }

/-- A policy where the author `alice` matches two `per_author` keys (her own
name and the group `grp`) whose reviewer lists overlap. -/
def overlapping_config : Config :=
  { reviewers := some { groups := some [("grp", ["alice"])],
                        per_author := some [("alice", ["bob"]), ("grp", ["bob"])] } }

/-- The policy with every key absent. -/
def empty_config : Config := {}

/-! ### Claim theorems -/

/-- Claim C1 (code bug): `identify_reviewers_by_changed_files` does NOT run
to completion on every well-typed input.  Because the loop variable
`reviewers` shadows the outer bucket object, any input where a glob rule
matches a changed file throws a `TypeError` instead of degrading to an empty
result; only inputs where no rule matches any file return normally. -/
theorem identify_throws_on_glob_match :
    identify_reviewers_by_changed_files throwing_config throwing_changes =
      .error .typeError ∧
    identify_reviewers_by_changed_files throwing_config {} = .ok (.buckets {}) :=
  ⟨rfl, rfl⟩

/-- Claim C2 (code bug): on the spec's revert-classification input the code
throws a `TypeError` at the first matching rule; no bucket (in particular
neither `could_be_removed` nor `must_be_added`) is ever populated. -/
theorem identify_throws_on_revert_input :
    identify_reviewers_by_changed_files revert_config revert_changes =
      .error .typeError := rfl

/-- Claim C3 (code bug): with `last_files_match_only` enabled and a matching
rule, the code throws a `TypeError` at `reviewers.matched.length = 0` (the
shadowed rule list has no `matched` property); the `matched` bucket is never
replaced by the most recent matching rule's reviewers. -/
theorem identify_throws_with_last_files_match_only :
    identify_reviewers_by_changed_files lfm_config revert_changes =
      .error .typeError := rfl

/-- Claim C4 (counterexample): when the author matches several `per_author`
keys with overlapping reviewer lists, `identify_reviewers_by_author` returns
a list with a repeated identifier: here `["bob", "bob"]`. -/
theorem author_reviewers_duplicated :
    identify_reviewers_by_author overlapping_config "alice" = ["bob", "bob"] ∧
    ¬ (identify_reviewers_by_author overlapping_config "alice").Nodup := by
  exact ⟨rfl, by decide⟩

/-- Claim C4 (amended): `fetch_other_group_members`, `fetch_default_reviewers`,
`replace_groups_with_individuals` and every bucket returned by
`identify_reviewers_by_changed_files` are duplicate-free; only
`identify_reviewers_by_author` can return duplicates (see the
counterexample). -/
theorem reviewer_lists_nodup (config : Config) (cf : ChangedFiles)
    (author : String) (revs excludes : List String) :
    (fetch_other_group_members author config).Nodup ∧
    (fetch_default_reviewers config excludes).Nodup ∧
    (replace_groups_with_individuals revs config excludes).Nodup ∧
    (∀ l, identify_reviewers_by_changed_files config cf excludes = .ok (.flat l) →
      l.Nodup) ∧
    (∀ b, identify_reviewers_by_changed_files config cf excludes = .ok (.buckets b) →
      b.matched.Nodup ∧ b.must_be_added.Nodup ∧ b.should_be_added.Nodup ∧
        b.could_be_removed.Nodup) := by
  refine ⟨?_, ?_, replace_groups_nodup revs config excludes, ?_, ?_⟩
  · simp only [fetch_other_group_members]
    split
    · exact List.nodup_nil
    · exact dedupJS_nodup _
  · rcases hr : config.reviewers with _ | r
    · simp [fetch_default_reviewers, hr]
    · rcases hd : r.defaults with _ | ds
      · simp [fetch_default_reviewers, hr, hd]
      · simp only [fetch_default_reviewers, hr, hd]
        exact (dedupJS_nodup _).filter _
  · intro l hl
    rcases identify_cases config cf excludes with ⟨_, h⟩ | ⟨_, h⟩ | ⟨_, h⟩ <;> rw [h] at hl
    · obtain rfl : ([] : List String) = l := by simpa using hl
      exact List.nodup_nil
    · simp at hl
    · simp at hl
  · intro b hb
    rcases identify_cases config cf excludes with ⟨_, h⟩ | ⟨_, h⟩ | ⟨_, h⟩ <;> rw [h] at hb
    · simp at hb
    · simp at hb
    · obtain rfl : ({} : Buckets) = b := by simpa using hb
      exact ⟨List.nodup_nil, List.nodup_nil, List.nodup_nil, List.nodup_nil⟩

/-- Witness for the amended C4 theorem at a concrete successful run. -/
theorem reviewer_lists_nodup_witness :
    ({} : Buckets).matched.Nodup ∧ ({} : Buckets).must_be_added.Nodup ∧
    ({} : Buckets).should_be_added.Nodup ∧ ({} : Buckets).could_be_removed.Nodup :=
  (reviewer_lists_nodup throwing_config {} "alice" ["bob"] []).2.2.2.2 {} rfl

/-- Claim C5: every matcher taking an exclusion set (`replace_groups_with_individuals`,
`fetch_default_reviewers`, and each returned piece of
`identify_reviewers_by_changed_files`) returns no excluded identifier. -/
theorem exclusion_invariant (config : Config) (cf : ChangedFiles)
    (revs excludes : List String) :
    (∀ x ∈ replace_groups_with_individuals revs config excludes, x ∉ excludes) ∧
    (∀ x ∈ fetch_default_reviewers config excludes, x ∉ excludes) ∧
    (∀ l, identify_reviewers_by_changed_files config cf excludes = .ok (.flat l) →
      ∀ x ∈ l, x ∉ excludes) ∧
    (∀ b, identify_reviewers_by_changed_files config cf excludes = .ok (.buckets b) →
      ∀ x, (x ∈ b.matched ∨ x ∈ b.must_be_added ∨ x ∈ b.should_be_added ∨
        x ∈ b.could_be_removed) → x ∉ excludes) := by
  refine ⟨fun x hx => replace_groups_not_excluded hx, ?_, ?_, ?_⟩
  · intro x hx
    rcases hr : config.reviewers with _ | r
    · simp [fetch_default_reviewers, hr] at hx
    · rcases hd : r.defaults with _ | ds
      · simp [fetch_default_reviewers, hr, hd] at hx
      · simp only [fetch_default_reviewers, hr, hd] at hx
        simpa using List.of_mem_filter hx
  · intro l hl x hx
    rcases identify_cases config cf excludes with ⟨_, h⟩ | ⟨_, h⟩ | ⟨_, h⟩ <;> rw [h] at hl
    · obtain rfl : ([] : List String) = l := by simpa using hl
      exact absurd hx (List.not_mem_nil x)
    · simp at hl
    · simp at hl
  · intro b hb x hx
    rcases identify_cases config cf excludes with ⟨_, h⟩ | ⟨_, h⟩ | ⟨_, h⟩ <;> rw [h] at hb
    · simp at hb
    · simp at hb
    · obtain rfl : ({} : Buckets) = b := by simpa using hb
      rcases hx with h1 | h1 | h1 | h1 <;> exact absurd h1 (List.not_mem_nil x)

/-- Witness for C5 at a concrete input: `bob` is excluded, `alice` survives. -/
theorem exclusion_invariant_witness :
    "alice" ∈ replace_groups_with_individuals ["bob", "alice"] empty_config ["bob"] ∧
    "alice" ∉ (["bob"] : List String) :=
  ⟨by decide, (exclusion_invariant empty_config {} ["bob", "alice"] ["bob"]).1 "alice"
    (by decide)⟩

/-- Claim C6: the specified author never occurs in the output of
`identify_reviewers_by_author` or of `fetch_other_group_members`. -/
theorem self_exclusion (config : Config) (author : String) :
    (identify_reviewers_by_author config author).count author = 0 ∧
    (fetch_other_group_members author config).count author = 0 := by
  constructor
  · refine List.count_eq_zero.mpr (fun hmem => ?_)
    rcases hp : per_author_of config with _ | pa
    · simp [identify_reviewers_by_author, hp] at hmem
    · simp only [identify_reviewers_by_author, hp] at hmem
      have hne := List.of_mem_filter hmem
      simp at hne
  · refine List.count_eq_zero.mpr (fun hmem => ?_)
    simp only [fetch_other_group_members] at hmem
    split at hmem
    · simp at hmem
    · have hne := List.of_mem_filter (mem_dedupJS hmem)
      simp at hne

/-- Claim C7: the request gate refuses drafts when `ignore_draft` (default
true) holds; otherwise it accepts exactly when no ignored keyword (default
`["DO NOT REVIEW"]`) occurs in the title as a literal substring; plus the
three concrete default-option examples. -/
theorem should_request_review_spec :
    (∀ (title : String) (config : Config),
      config.options.ignore_draft.getD true = true →
      should_request_review title true config = false) ∧
    (∀ (title : String) (is_draft : Bool) (config : Config),
      (config.options.ignore_draft.getD true && is_draft) = false →
      (should_request_review title is_draft config = true ↔
        ∀ kw ∈ config.options.ignored_keywords.getD ["DO NOT REVIEW"],
          strIncludes title kw = false)) ∧
    should_request_review "WIP" true empty_config = false ∧
    should_request_review "Add feature DO NOT REVIEW yet" false empty_config = false ∧
    should_request_review "Add feature" false empty_config = true := by
  refine ⟨?_, ?_, by decide, by decide, by decide⟩
  · intro title config h
    simp [should_request_review, h]
  · intro title is_draft config h
    simp [should_request_review, h, List.any_eq_false]

/-- Witness for C7: the gate applied to concrete drafts and titles. -/
theorem should_request_review_spec_witness :
    should_request_review "Add feature" true empty_config = false ∧
    (should_request_review "Add feature" false empty_config = true ↔
      ∀ kw ∈ empty_config.options.ignored_keywords.getD ["DO NOT REVIEW"],
        strIncludes "Add feature" kw = false) :=
  ⟨should_request_review_spec.1 "Add feature" empty_config rfl,
   should_request_review_spec.2.1 "Add feature" false empty_config rfl⟩

/-- A policy requesting two sampled reviewers. -/
def pick_two_config : Config :=
  { options := { number_of_reviewers := some (Int.ofNat 2) } }

/-- Claim C8: `randomly_pick_reviewers` is the identity when
`number_of_reviewers` is absent; with `number_of_reviewers = k` the output
has length `k` when `k ≤ N`, length `N` when `k > N`, and only contains
elements of the input — for every random oracle. -/
theorem randomly_pick_reviewers_spec (oracle : Nat → Nat) (reviewers : List String)
    (config : Config) :
    (config.options.number_of_reviewers = none →
      randomly_pick_reviewers oracle reviewers config = reviewers) ∧
    (∀ k : Nat, config.options.number_of_reviewers = some (Int.ofNat k) →
      (k ≤ reviewers.length →
        (randomly_pick_reviewers oracle reviewers config).length = k) ∧
      (reviewers.length < k →
        (randomly_pick_reviewers oracle reviewers config).length = reviewers.length) ∧
      (∀ x ∈ randomly_pick_reviewers oracle reviewers config, x ∈ reviewers)) := by
  constructor
  · intro h; simp [randomly_pick_reviewers, h]
  · intro k h
    have hres : randomly_pick_reviewers oracle reviewers config
        = shuffleSelf oracle reviewers (min k reviewers.length) := by
      simp only [randomly_pick_reviewers, h]
      congr 1
      simp only [Int.ofNat_eq_coe]
      omega
    have hlen : (randomly_pick_reviewers oracle reviewers config).length
        = min k reviewers.length := by
      rw [hres]
      simp only [shuffleSelf]
      rw [List.length_take, shuffleGo_length]
      omega
    refine ⟨fun hk => by rw [hlen]; omega, fun hk => by rw [hlen]; omega, ?_⟩
    intro x hx
    rw [hres] at hx
    rcases reviewers with _ | ⟨a, rest⟩
    · simp [shuffleSelf, shuffleGo] at hx
    · simp only [shuffleSelf] at hx
      have hx2 := List.mem_of_mem_take hx
      exact shuffleGo_mem oracle _ _ _ 0 (a :: rest)
        (by simp) (Nat.min_le_right _ _) x hx2

/-- Witness for C8: a concrete absent-option run and a concrete sampled run. -/
theorem randomly_pick_reviewers_spec_witness :
    randomly_pick_reviewers (fun _ => 0) ["ann", "ben", "cal"] empty_config =
      ["ann", "ben", "cal"] ∧
    (randomly_pick_reviewers (fun _ => 0) ["ann", "ben", "cal"] pick_two_config).length = 2 :=
  ⟨(randomly_pick_reviewers_spec (fun _ => 0) ["ann", "ben", "cal"] empty_config).1 rfl,
   ((randomly_pick_reviewers_spec (fun _ => 0) ["ann", "ben", "cal"] pick_two_config).2 2
     rfl).1 (by decide)⟩

/-- Claim C9: on a group-free reviewer list (empty exclusion set) the group
resolver is idempotent, and on a group-free duplicate-free list it is the
identity. -/
theorem replace_groups_idempotent (config : Config) (l : List String)
    (hg : ∀ x ∈ l, lookupAssoc (config_groups config) x = none) :
    replace_groups_with_individuals (replace_groups_with_individuals l config) config =
      replace_groups_with_individuals l config ∧
    (l.Nodup → replace_groups_with_individuals l config = l) := by
  have h1 : replace_groups_with_individuals l config = dedupJS l :=
    replace_groups_groupfree hg
  constructor
  · rw [h1]
    have h2 : ∀ x ∈ dedupJS l, lookupAssoc (config_groups config) x = none :=
      fun x hx => hg x (mem_dedupJS hx)
    rw [replace_groups_groupfree h2, dedupJS_eq_self (dedupJS_nodup l)]
  · intro hnd
    rw [h1, dedupJS_eq_self hnd]

/-- Witness for C9: re-resolving a resolved concrete group-free list. -/
theorem replace_groups_idempotent_witness :
    replace_groups_with_individuals
        (replace_groups_with_individuals ["ann", "ben", "ann"] empty_config) empty_config =
      replace_groups_with_individuals ["ann", "ben", "ann"] empty_config :=
  (replace_groups_idempotent empty_config ["ann", "ben", "ann"] (fun _ _ => rfl)).1

/-- Claim C10: without a `files` key the result is the flat empty array;
with one (even empty) the normal return shape is always the four-bucket
object, never the flat array. -/
theorem files_result_shape (config : Config) (cf : ChangedFiles) (excludes : List String) :
    (config.files = none →
      identify_reviewers_by_changed_files config cf excludes = .ok (.flat [])) ∧
    (config.files ≠ none →
      (∀ l, identify_reviewers_by_changed_files config cf excludes ≠ .ok (.flat l)) ∧
      (identify_reviewers_by_changed_files config cf excludes = .error .typeError ∨
        ∃ b : Buckets, identify_reviewers_by_changed_files config cf excludes =
          .ok (.buckets b))) := by
  rcases identify_cases config cf excludes with ⟨hn, h⟩ | ⟨hn, h⟩ | ⟨hn, h⟩
  · exact ⟨fun _ => h, fun hs => absurd hn hs⟩
  · refine ⟨fun hx => absurd hx hn, fun _ => ⟨fun l hl => ?_, Or.inl h⟩⟩
    rw [h] at hl; simp at hl
  · refine ⟨fun hx => absurd hx hn, fun _ => ⟨fun l hl => ?_, Or.inr ⟨{}, h⟩⟩⟩
    rw [h] at hl; simp at hl

/-- Witness for C10: the two shapes at concrete configs. -/
theorem files_result_shape_witness :
    identify_reviewers_by_changed_files empty_config {} [] = .ok (.flat []) ∧
    (identify_reviewers_by_changed_files throwing_config {} [] = .error .typeError ∨
      ∃ b : Buckets, identify_reviewers_by_changed_files throwing_config {} [] =
        .ok (.buckets b)) :=
  ⟨(files_result_shape empty_config {} []).1 rfl,
   ((files_result_shape throwing_config {} []).2 (by simp [throwing_config])).2⟩

end AutoRequestReview
